import Mathlib

/-!
Verification of the circular experience replay buffer of
`src/fabricrl/data/buffers.py` (class `ReplayBuffer`).

The buffer stores, for every field name, an array of shape
`[buffer_size, n_envs, ...]` inside a `TensorDict` (the external Named Field
Table collaborator).  We embed the buffer state shallowly:

* a cell value has an abstract type `α`; the field table becomes a total
  function `String → Nat → Nat → α` (field name, slot, environment column);
  unwritten cells hold the arbitrary construction default, which no claim
  reads;
* machine integers become `Nat`, with `% bufferSize` written explicitly where
  the source wraps;
* fallible operations (`add`, `sample`, `__getitem__`, `__setitem__`) return
  `Except BufError _`; an error result models a raised Python exception and
  leaves the caller's state untouched;
* `torch.randint(lo, hi)` is modelled by mapping an arbitrary entropy input
  `r : Nat` into the half-open interval `[lo, hi)` as `lo + r % (hi - lo)`,
  which has exactly the image of the real draw; an empty interval
  (`lo ≥ hi`) raises, as in torch.

The indexed assignment `self._buf[idxes, :] = data` of the external
`TensorDict` collaborator (spec section 6) first compares the indexed batch
size `[len(idxes), n_envs]` with the payload batch size (raising a
RuntimeError shape mismatch when they differ, as `TensorDict.__setitem__`
does), and only then performs the per-tensor indexed writes, which raise an
IndexError when an index is out of range or when the index list is empty
(`torch.tensor([])` has floating dtype and is rejected as an index).
-/

/-- Error kinds of the buffer operations, following the spec taxonomy:
`typeError` for non-string field keys and wrongly typed payloads,
`shapeError` for the rank check of `add` and the field-table batch-size
mismatch, `boundsError` for the `batch_size` validations of `sample`,
`emptyBufferError` for `torch.randint(0, 0)` on a never-written buffer,
`degenerateRangeError` for `torch.randint(1, 1)` on a full size-1 buffer,
and `indexError` for out-of-range or empty index tensors. -/
inductive BufError : Type where
  | typeError
  | shapeError
  | boundsError
  | emptyBufferError
  | degenerateRangeError
  | indexError
deriving DecidableEq, Repr

/-- The field name `"observations"` used by `_get_samples`. -/
def observations : String := "observations"

/-- A field key passed to `__getitem__` / `__setitem__`: either a Python
string or any non-string value. -/
inductive FieldKey : Type where
  | str (s : String)
  | notStr
deriving DecidableEq, Repr

/-- A `TensorDictBase` payload handed to `add`: its batch shape (the
`data.shape` of the source; `[T, n_envs]` when well-formed) and its cell
contents per field name, timestep row and environment column. -/
structure Payload (α : Type) : Type where
  shape : List Nat
  data : String → Nat → Nat → α

/-- State of `fabricrl.data.buffers.ReplayBuffer`: capacity `_buffer_size`,
environment count `_n_envs`, the backing field table `_buf`, the write
cursor `_pos` and the `_full` flag. -/
structure ReplayBuffer (α : Type) : Type where
  bufferSize : Nat
  nEnvs : Nat
  buf : String → Nat → Nat → α
  pos : Nat
  full : Bool

/-- `ReplayBuffer.__init__`: empty table (every cell at the arbitrary
default `d`), `pos = 0`, `full = False`. -/
def ReplayBuffer.init (bufferSize nEnvs : Nat) (d : α) : ReplayBuffer α :=
  { bufferSize := bufferSize
    nEnvs := nEnvs
    buf := fun _ _ _ => d
    pos := 0
    full := false }

/-- `__len__`: returns `self.buffer_size`. -/
def ReplayBuffer.len (rb : ReplayBuffer α) : Nat := rb.bufferSize

/-- The `next_pos` computed by `add`: `(pos + data_len) % buffer_size`,
then the exact-multiple edge case `if pos == 0 and next_pos == 0:
next_pos = data_len`. -/
def nextPosOf (bufferSize pos dataLen : Nat) : Nat :=
  let nextPos := (pos + dataLen) % bufferSize
  if pos = 0 ∧ nextPos = 0 then dataLen else nextPos

/-- The destination index list of `add`:
`list(range(pos, buffer_size)) + list(range(0, next_pos))` when the write
wraps (`next_pos < pos`), else `range(pos, next_pos)`.  Python's
`range(a, b)` is `List.range' a (b - a)` (empty when `b ≤ a`). -/
def idxesOf (bufferSize pos nextPos : Nat) : List Nat :=
  if nextPos < pos then
    List.range' pos (bufferSize - pos) ++ List.range nextPos
  else
    List.range' pos (nextPos - pos)

/-- The effect of the indexed write `self._buf[idxes, :] = data`: walking the
index list with a running payload-row counter `j`, cell `idxes[k]` of every
field and every environment column receives payload row `j + k`. -/
def writeRows (idxes : List Nat) (j : Nat) (data buf : String → Nat → Nat → α) :
    String → Nat → Nat → α :=
  match idxes with
  | [] => buf
  | i :: rest =>
      writeRows rest (j + 1) data (fun f s e => if s = i then data f j e else buf f s e)

/-- `ReplayBuffer.add`.  The source:
* raises RuntimeError when `len(data.shape) != 2`;
* computes `next_pos` (with the exact-multiple edge case) and the
  destination index list `idxes`;
* performs `self._buf[idxes, :] = data`, i.e. the external field table
  first checks the indexed batch size `[len(idxes), n_envs]` against the
  payload batch size (shape mismatch otherwise), then writes, rejecting an
  empty index tensor (floating dtype) or an out-of-range index;
* on success sets `full = True` when `pos + data_len >= buffer_size` and
  updates `pos = next_pos`.
An error leaves the buffer unchanged, as the Python exception is raised
before the cursor and flag updates. -/
def ReplayBuffer.add (rb : ReplayBuffer α) (p : Payload α) :
    Except BufError (ReplayBuffer α) :=
  if p.shape.length = 2 then
    let dataLen := p.shape.headD 0
    let idxes := idxesOf rb.bufferSize rb.pos (nextPosOf rb.bufferSize rb.pos dataLen)
    if idxes.length = dataLen ∧ p.shape.getD 1 0 = rb.nEnvs then
      if idxes ≠ [] ∧ ∀ i ∈ idxes, i < rb.bufferSize then
        Except.ok
          { rb with
            buf := writeRows idxes 0 p.data rb.buf
            full := rb.full || decide (rb.bufferSize ≤ rb.pos + dataLen)
            pos := nextPosOf rb.bufferSize rb.pos dataLen }
      else Except.error BufError.indexError
    else Except.error BufError.shapeError
  else Except.error BufError.shapeError

/-- The minibatch returned by `_get_samples`: the drawn row index per
(batch position, environment column) — the `batch_idxes` tensor — together
with the gathered cells of every field (`torch.gather(self._buf, 0,
batch_idxes).clone()`) and the synthesized `next_obs` field
(`self._buf["observations"][(batch_idxes + 1) % buffer_size, arange(n_envs)]`).
All parts are deep copies of the storage at call time. -/
structure Minibatch (α : Type) : Type where
  rows : Nat → Nat → Nat
  vals : String → Nat → Nat → α
  nextObs : Nat → Nat → α

/-- `ReplayBuffer._get_samples`. -/
def ReplayBuffer.getSamples (rb : ReplayBuffer α) (batchIdxes : Nat → Nat → Nat) :
    Minibatch α :=
  { rows := batchIdxes
    vals := fun f b e => rb.buf f (batchIdxes b e) e
    nextObs := fun b e => rb.buf observations ((batchIdxes b e + 1) % rb.bufferSize) e }

/-- `ReplayBuffer.sample`.  The source raises ValueError when
`batch_size <= 0` or `batch_size > buffer_size`; when full it draws
`(torch.randint(1, buffer_size) + pos) % buffer_size` per cell (randint
raising on the empty interval when `buffer_size <= 1`), otherwise it draws
`torch.randint(0, pos)` (raising when `pos == 0`, the never-written
buffer).  The entropy source `r` is mapped into the randint interval as
described in the file header.  Sampling performs no writes, so the buffer
state is unchanged by construction. -/
def ReplayBuffer.sample (rb : ReplayBuffer α) (batchSize : Nat)
    (r : Nat → Nat → Nat) : Except BufError (Minibatch α) :=
  if batchSize = 0 then Except.error BufError.boundsError
  else if rb.bufferSize < batchSize then Except.error BufError.boundsError
  else if rb.full then
    if rb.bufferSize ≤ 1 then Except.error BufError.degenerateRangeError
    else
      Except.ok (rb.getSamples
        (fun b e => ((1 + r b e % (rb.bufferSize - 1)) + rb.pos) % rb.bufferSize))
  else
    if rb.pos = 0 then Except.error BufError.emptyBufferError
    else Except.ok (rb.getSamples (fun b e => r b e % rb.pos))

/-- `ReplayBuffer.__getitem__`: the source itself checks
`isinstance(key, str)` and raises TypeError otherwise; for a string key it
returns the live backing array `self._buf.get(key)`. -/
def ReplayBuffer.getItem (rb : ReplayBuffer α) (k : FieldKey) :
    Except BufError (Nat → Nat → α) :=
  match k with
  | FieldKey.notStr => Except.error BufError.typeError
  | FieldKey.str s => Except.ok (rb.buf s)

/-- The external field table's `set(table, field_name, array)` (spec
section 6): field names are strings, and `TensorDict.set` raises TypeError
for a non-string key. -/
def tdSet {α : Type} (buf : String → Nat → Nat → α) (k : FieldKey) (t : Nat → Nat → α) :
    Except BufError (String → Nat → Nat → α) :=
  match k with
  | FieldKey.notStr => Except.error BufError.typeError
  | FieldKey.str s => Except.ok (fun f => if f = s then t else buf f)

/-- `ReplayBuffer.__setitem__`: delegates to `self.buffer.set(key, t)`;
a raised error leaves the buffer unchanged. -/
def ReplayBuffer.setItem (rb : ReplayBuffer α) (k : FieldKey) (t : Nat → Nat → α) :
    Except BufError (ReplayBuffer α) :=
  match tdSet rb.buf k t with
  | Except.error e => Except.error e
  | Except.ok b => Except.ok { rb with buf := b }

/-- Buffer states reachable from `ReplayBuffer(C, E)` (construction
requires a positive capacity and environment count, spec section 4.1)
through successful `add` calls, together with the cumulative number of
timesteps written since construction. -/
inductive ReachableFrom (C E : Nat) (d : α) : ReplayBuffer α → Nat → Prop where
  | init : 0 < C → 0 < E → ReachableFrom C E d (ReplayBuffer.init C E d) 0
  | step {rb rb2 : ReplayBuffer α} {n : Nat} (p : Payload α) :
      ReachableFrom C E d rb n → rb.add p = Except.ok rb2 →
      ReachableFrom C E d rb2 (n + p.shape.headD 0)


/-- A concrete buffer for the witnesses: capacity 2, one environment
column, integer cells, construction default 0. -/
def bufInit : ReplayBuffer Int := ReplayBuffer.init 2 1 0

/-- A payload of two timesteps for one environment column. -/
def pFill : Payload Int := { shape := [2, 1], data := fun _ t _ => Int.ofNat t }

/-- `bufInit` after `add pFill`: both slots written, `full = true`, and
the cursor at `2 = bufferSize` through the exact-capacity edge case. -/
def rbFull2 : ReplayBuffer Int :=
  { bufferSize := 2
    nEnvs := 1
    buf := writeRows [0, 1] 0 pFill.data (fun _ _ _ => 0)
    pos := 2
    full := true }

/-- A one-timestep payload. -/
def pK : Payload Int := { shape := [1, 1], data := fun _ _ _ => 9 }

/-- `rbFull2` after `add pK`: slot 0 overwritten, cursor at 1. -/
def rbK : ReplayBuffer Int :=
  { bufferSize := 2
    nEnvs := 1
    buf := writeRows [0] 0 pK.data rbFull2.buf
    pos := 1
    full := true }

/-- A three-timestep payload, longer than the capacity of `bufInit`. -/
def pT3 : Payload Int := { shape := [3, 1], data := fun _ _ _ => 0 }

/-- A rank-2 payload whose environment dimension is 2. -/
def pE2 : Payload Int := { shape := [1, 2], data := fun _ _ _ => 0 }

/-- The minibatch produced by sampling `rbFull2` with zero entropy: every
cell draws row `(1 + 0 % 1 + 2) % 2 = 1`. -/
def mbW : Minibatch Int :=
  (rbFull2.sample 1 (fun _ _ => 0)).toOption.getD (rbFull2.getSamples (fun _ _ => 0))

/-- A slot outside the destination index list is untouched by the indexed
write. -/
theorem writeRows_not_mem {α : Type} (idxes : List Nat) (j : Nat)
    (data buf : String → Nat → Nat → α) (f : String) (s e : Nat)
    (hs : s ∉ idxes) :
    writeRows idxes j data buf f s e = buf f s e := by
  revert hs
  induction idxes generalizing j buf with
  | nil => intro hs; rfl
  | cons i rest ih =>
      intro hs
      simp only [writeRows]
      rw [ih (j + 1) (fun f2 s2 e2 => if s2 = i then data f2 j e2 else buf f2 s2 e2)
        (fun hh => hs (List.mem_cons_of_mem i hh))]
      rw [if_neg (fun hh : s = i => hs (hh ▸ List.mem_cons_self i rest))]

/-- On a duplicate-free index list, the slot at position `j0` of the list
receives payload row `j + j0`. -/
theorem writeRows_get {α : Type} (data : String → Nat → Nat → α) (f : String)
    (e : Nat) :
    ∀ (idxes : List Nat) (j j0 : Nat) (buf : String → Nat → Nat → α)
      (hj : j0 < idxes.length), idxes.Nodup →
      writeRows idxes j data buf f (idxes.get ⟨j0, hj⟩) e = data f (j + j0) e := by
  intro idxes
  induction idxes with
  | nil => intro j j0 buf hj _; exact absurd hj (by simp)
  | cons i rest ih =>
      intro j j0 buf hj hnd
      match j0 with
      | 0 =>
          have hni : i ∉ rest := (List.nodup_cons.mp hnd).1
          simp only [writeRows, List.get]
          rw [writeRows_not_mem rest (j + 1) data _ f i e hni]
          simp
      | Nat.succ k =>
          have hk : k < rest.length := Nat.lt_of_succ_lt_succ (by simpa using hj)
          simp only [writeRows, List.get]
          rw [ih (j + 1) k _ hk (List.nodup_cons.mp hnd).2]
          have harith : j + 1 + k = j + (k + 1) := by omega
          rw [harith]

/-- The indexed write along `List.range k` stores payload row `j + s` at
slot `s < k`. -/
theorem writeRows_range {α : Type} (k j : Nat) (data buf : String → Nat → Nat → α)
    (f : String) (s e : Nat) (hs : s < k) :
    writeRows (List.range k) j data buf f s e = data f (j + s) e := by
  have hj : s < (List.range k).length := by simpa using hs
  have hh := writeRows_get data f e (List.range k) j s buf hj (List.nodup_range k)
  rwa [List.get_range] at hh

theorem nextPosOf_edge (bufferSize pos dataLen : Nat)
    (h : pos = 0 ∧ (pos + dataLen) % bufferSize = 0) :
    nextPosOf bufferSize pos dataLen = dataLen := by
  simp only [nextPosOf]
  rw [if_pos h]

theorem nextPosOf_mod (bufferSize pos dataLen : Nat)
    (h : ¬(pos = 0 ∧ (pos + dataLen) % bufferSize = 0)) :
    nextPosOf bufferSize pos dataLen = (pos + dataLen) % bufferSize := by
  simp only [nextPosOf]
  rw [if_neg h]

theorem idxesOf_wrap (bufferSize pos nextPos : Nat) (h : nextPos < pos) :
    idxesOf bufferSize pos nextPos =
      List.range' pos (bufferSize - pos) ++ List.range nextPos := by
  simp only [idxesOf]
  rw [if_pos h]

theorem idxesOf_nowrap (bufferSize pos nextPos : Nat) (h : ¬ nextPos < pos) :
    idxesOf bufferSize pos nextPos = List.range' pos (nextPos - pos) := by
  simp only [idxesOf]
  rw [if_neg h]

theorem idxesOf_length (bufferSize pos nextPos : Nat) :
    (idxesOf bufferSize pos nextPos).length =
      if nextPos < pos then (bufferSize - pos) + nextPos else nextPos - pos := by
  simp only [idxesOf]
  split <;> simp

/-- Anatomy of a successful `add`: the payload had rank 2 and a matching
environment dimension, the destination index list had exactly `data_len`
in-range entries and was non-empty, and the new state is the written table
with the updated flag and cursor. -/
theorem add_ok_elim {α : Type} {rb rb2 : ReplayBuffer α} {p : Payload α}
    (h : rb.add p = Except.ok rb2) :
    p.shape.length = 2 ∧
    p.shape.getD 1 0 = rb.nEnvs ∧
    (idxesOf rb.bufferSize rb.pos
        (nextPosOf rb.bufferSize rb.pos (p.shape.headD 0))).length = p.shape.headD 0 ∧
    idxesOf rb.bufferSize rb.pos (nextPosOf rb.bufferSize rb.pos (p.shape.headD 0)) ≠ [] ∧
    (∀ i ∈ idxesOf rb.bufferSize rb.pos (nextPosOf rb.bufferSize rb.pos (p.shape.headD 0)),
        i < rb.bufferSize) ∧
    rb2 = { rb with
            buf := writeRows (idxesOf rb.bufferSize rb.pos
                      (nextPosOf rb.bufferSize rb.pos (p.shape.headD 0))) 0 p.data rb.buf
            full := rb.full || decide (rb.bufferSize ≤ rb.pos + p.shape.headD 0)
            pos := nextPosOf rb.bufferSize rb.pos (p.shape.headD 0) } := by
  simp only [ReplayBuffer.add] at h
  split_ifs at h with h1 h2 h3
  injection h with h4
  exact ⟨h1, h2.2, h2.1, h3.1, h3.2, h4.symm⟩

/-- Inductive invariant of the reachable states: the capacity and the
environment count are the construction values; the cursor never exceeds the
capacity; while not full the cursor equals the cumulative write count,
which is below capacity; the flag holds exactly when the cumulative count
reached capacity; and when the count equals the capacity exactly, the
cursor is `0` or `bufferSize` (the latter after a single exact-capacity
write into a fresh buffer). -/
theorem reach_invariant {α : Type} {C E : Nat} {d : α} {rb : ReplayBuffer α}
    {n : Nat} (h : ReachableFrom C E d rb n) :
    0 < C ∧ 0 < E ∧ rb.bufferSize = C ∧ rb.nEnvs = E ∧ rb.pos ≤ C ∧
    (rb.full = false → rb.pos = n ∧ n < C) ∧
    (rb.full = true ↔ C ≤ n) ∧
    (n = C → rb.pos = 0 ∨ rb.pos = C) := by
  induction h with
  | init hC hE =>
      refine ⟨hC, hE, rfl, rfl, Nat.zero_le _, fun _ => ⟨rfl, hC⟩, ?_, fun _ => Or.inl rfl⟩
      simp only [ReplayBuffer.init]
      constructor
      · intro hh; exact absurd hh (by simp)
      · intro hh; omega
  | step p hr hadd ih =>
      rename_i rbp rbNew np
      obtain ⟨hC, hE, hbs, hnE, hposle, hnotfull, hfulliff, hexact⟩ := ih
      obtain ⟨hlen2, hgetd, hlen, hnil, hbnd, hrb2⟩ := add_ok_elim hadd
      subst hrb2
      rw [hbs] at hlen hnil hbnd
      have hne0 : (idxesOf C rbp.pos (nextPosOf C rbp.pos (p.shape.headD 0))).length ≠ 0 :=
        fun hz => hnil (List.length_eq_zero.mp hz)
      have hL1 : 0 < p.shape.headD 0 := by omega
      refine ⟨hC, hE, hbs, hnE, ?_, ?_, ?_, ?_⟩
      case _ => -- cursor stays at most the capacity
        show nextPosOf rbp.bufferSize rbp.pos (p.shape.headD 0) ≤ C
        rw [hbs]
        by_cases hedge : rbp.pos = 0 ∧ (rbp.pos + p.shape.headD 0) % C = 0
        · rw [nextPosOf_edge C rbp.pos (p.shape.headD 0) hedge]
          rw [nextPosOf_edge C rbp.pos (p.shape.headD 0) hedge, hedge.1] at hbnd
          rw [idxesOf_nowrap C 0 (p.shape.headD 0) (by omega), Nat.sub_zero,
            ← List.range_eq_range'] at hbnd
          have hmem := hbnd (p.shape.headD 0 - 1) (List.mem_range.mpr (by omega))
          omega
        · rw [nextPosOf_mod C rbp.pos (p.shape.headD 0) hedge]
          have := Nat.mod_lt (rbp.pos + p.shape.headD 0) hC
          omega
      case _ => -- while not full, the cursor equals the count
        show (rbp.full || decide (rbp.bufferSize ≤ rbp.pos + p.shape.headD 0)) = false →
          nextPosOf rbp.bufferSize rbp.pos (p.shape.headD 0) = np + p.shape.headD 0 ∧
            np + p.shape.headD 0 < C
        intro hf
        rw [hbs] at hf
        rw [Bool.or_eq_false_iff, decide_eq_false_iff_not] at hf
        obtain ⟨hgot, hlt⟩ := hnotfull hf.1
        have hsum : rbp.pos + p.shape.headD 0 < C := by omega
        have hedge : ¬(rbp.pos = 0 ∧ (rbp.pos + p.shape.headD 0) % C = 0) := by
          intro hcon
          rw [hcon.1, Nat.zero_add, Nat.mod_eq_of_lt (by omega)] at hcon
          omega
        rw [hbs, nextPosOf_mod C rbp.pos (p.shape.headD 0) hedge,
          Nat.mod_eq_of_lt hsum]
        omega
      case _ => -- the flag holds exactly when the count reached capacity
        show ((rbp.full || decide (rbp.bufferSize ≤ rbp.pos + p.shape.headD 0)) = true ↔
          C ≤ np + p.shape.headD 0)
        rw [hbs, Bool.or_eq_true, decide_eq_true_eq]
        constructor
        · rintro (hf | hge)
          · have := hfulliff.mp hf
            omega
          · cases hfcase : rbp.full with
            | true => have := hfulliff.mp hfcase; omega
            | false => obtain ⟨hpn, _⟩ := hnotfull hfcase; omega
        · intro hge
          cases hfcase : rbp.full with
          | true => exact Or.inl rfl
          | false =>
              obtain ⟨hpn, _⟩ := hnotfull hfcase
              exact Or.inr (by omega)
      case _ => -- exact-capacity count pins the cursor to 0 or the capacity
        show np + p.shape.headD 0 = C →
          nextPosOf rbp.bufferSize rbp.pos (p.shape.headD 0) = 0 ∨
            nextPosOf rbp.bufferSize rbp.pos (p.shape.headD 0) = C
        intro h0
        have hnC : np < C := by omega
        have hfl : rbp.full = false := by
          cases hfcase : rbp.full with
          | true => have := hfulliff.mp hfcase; omega
          | false => rfl
        obtain ⟨hpn, _⟩ := hnotfull hfl
        have hsum : rbp.pos + p.shape.headD 0 = C := by omega
        rw [hbs]
        by_cases hedge : rbp.pos = 0 ∧ (rbp.pos + p.shape.headD 0) % C = 0
        · right
          rw [nextPosOf_edge C rbp.pos (p.shape.headD 0) hedge]
          omega
        · left
          rw [nextPosOf_mod C rbp.pos (p.shape.headD 0) hedge, hsum, Nat.mod_self]

/-- The exact-capacity fill: `add` of two rows into the fresh size-2
buffer succeeds and leaves the cursor at the capacity. -/
theorem add_fill : bufInit.add pFill = Except.ok rbFull2 := rfl

/-- `rbFull2` is reachable with a cumulative write count of 2. -/
theorem reach_rbFull2 : ReachableFrom 2 1 (0 : Int) rbFull2 2 :=
  ReachableFrom.step pFill (ReachableFrom.init (by decide) (by decide)) add_fill

/-- The wraparound write of one row into `rbFull2`. -/
theorem add_pK : rbFull2.add pK = Except.ok rbK := rfl

/-- Sampling the full buffer `rbFull2` with zero entropy succeeds. -/
theorem sample_rbFull2 : rbFull2.sample 1 (fun _ _ => 0) = Except.ok mbW := rfl

/-- Claim C1: for every reachable buffer state (full or not) and every
`sample` call the buffer accepts, no drawn row index equals the current
write cursor `pos`; when `full` the drawn indices lie in the residue
classes other than `pos % bufferSize`, and when not `full` they lie in
`[0, pos)`. -/
theorem sample_never_draws_pos {α : Type} {C E : Nat} {d : α}
    {rb : ReplayBuffer α} {n : Nat} (h : ReachableFrom C E d rb n)
    (batchSize : Nat) (r : Nat → Nat → Nat) (mb : Minibatch α)
    (hs : rb.sample batchSize r = Except.ok mb) (b e : Nat) :
    mb.rows b e ≠ rb.pos ∧
    (rb.full = true → mb.rows b e < rb.bufferSize ∧
      mb.rows b e % rb.bufferSize ≠ rb.pos % rb.bufferSize) ∧
    (rb.full = false → mb.rows b e < rb.pos) := by
  obtain ⟨hC, hE, hbs, hnE, hposle, hnotfull, hfulliff, hexact⟩ := reach_invariant h
  unfold ReplayBuffer.sample at hs
  split_ifs at hs with h1 h2 h3 h4 h5
  · -- full branch, capacity at least 2
    injection hs with hmb
    subst hmb
    simp only [ReplayBuffer.getSamples]
    have h2le : 2 ≤ rb.bufferSize := by omega
    set q := 1 + r b e % (rb.bufferSize - 1) with hq
    have hqlo : 0 < q := by omega
    have hqhi : q < rb.bufferSize := by
      have := Nat.mod_lt (r b e) (y := rb.bufferSize - 1) (by omega)
      omega
    have hlt : (q + rb.pos) % rb.bufferSize < rb.bufferSize := Nat.mod_lt _ (by omega)
    have key : (q + rb.pos) % rb.bufferSize ≠ rb.pos % rb.bufferSize := by
      intro heq
      have hmeq : Nat.ModEq rb.bufferSize (q + rb.pos) (0 + rb.pos) := by
        unfold Nat.ModEq
        rw [Nat.zero_add]
        exact heq
      have hdvd := Nat.modEq_zero_iff_dvd.mp (Nat.ModEq.add_right_cancel' rb.pos hmeq)
      have := Nat.le_of_dvd hqlo hdvd
      omega
    refine ⟨?_, fun _ => ⟨hlt, ?_⟩, fun hf => absurd hf (by simp [h3])⟩
    · intro hcon
      have hplt : rb.pos < rb.bufferSize := hcon ▸ hlt
      exact key (hcon.trans (Nat.mod_eq_of_lt hplt).symm)
    · rw [Nat.mod_eq_of_lt hlt]
      exact key
  · -- not-full branch, at least one row written
    injection hs with hmb
    subst hmb
    simp only [ReplayBuffer.getSamples]
    have hplt : r b e % rb.pos < rb.pos := Nat.mod_lt _ (by omega)
    exact ⟨Nat.ne_of_lt hplt, fun hf => absurd hf h3, fun _ => hplt⟩

/-- Witness for C1 at the concrete full buffer `rbFull2`. -/
theorem sample_never_draws_pos_witness : mbW.rows 0 0 ≠ rbFull2.pos :=
  (sample_never_draws_pos reach_rbFull2 1 (fun _ _ => 0) mbW sample_rbFull2 0 0).1

/-- Claim C2: for every accepted `sample` call, the `next_obs` field of the
returned minibatch at batch position `b`, column `e` equals the buffer's
`observations` field at row `(drawn row + 1) % bufferSize`, column `e`, as
stored at call time. -/
theorem sample_next_obs_shift {α : Type} {C E : Nat} {d : α}
    {rb : ReplayBuffer α} {n : Nat} (h : ReachableFrom C E d rb n)
    (batchSize : Nat) (r : Nat → Nat → Nat) (mb : Minibatch α)
    (hs : rb.sample batchSize r = Except.ok mb) (b e : Nat) :
    mb.nextObs b e = rb.buf observations ((mb.rows b e + 1) % rb.bufferSize) e := by
  unfold ReplayBuffer.sample at hs
  split_ifs at hs
  · injection hs with hmb
    subst hmb
    rfl
  · injection hs with hmb
    subst hmb
    rfl

/-- Witness for C2 at the concrete full buffer `rbFull2`. -/
theorem sample_next_obs_shift_witness :
    mbW.nextObs 0 0 =
      rbFull2.buf observations ((mbW.rows 0 0 + 1) % rbFull2.bufferSize) 0 :=
  sample_next_obs_shift reach_rbFull2 1 (fun _ _ => 0) mbW sample_rbFull2 0 0

/-- Claim C3: after every sequence of successful `add` calls from a fresh
buffer, `full` is true exactly when the cumulative number of written
timesteps reached the capacity; moreover `full` survives every further
successful `add` (monotonic). -/
theorem full_iff_capacity_reached {α : Type} {C E : Nat} {d : α}
    {rb : ReplayBuffer α} {n : Nat} (h : ReachableFrom C E d rb n) :
    (rb.full = true ↔ C ≤ n) ∧
    (∀ (p : Payload α) (rb2 : ReplayBuffer α),
      rb.add p = Except.ok rb2 → rb.full = true → rb2.full = true) := by
  obtain ⟨hC, hE, hbs, hnE, hposle, hnotfull, hfulliff, hexact⟩ := reach_invariant h
  refine ⟨hfulliff, ?_⟩
  intro p rb2 hadd hf
  obtain ⟨_, _, _, _, _, hrb2⟩ := add_ok_elim hadd
  subst hrb2
  simp [hf]

/-- Witness for C3: the concrete buffer filled with exactly its capacity
is full. -/
theorem full_iff_capacity_reached_witness : rbFull2.full = true :=
  ((full_iff_capacity_reached reach_rbFull2).1).mpr (by decide)

/-- Claim C4: after a fill of exactly `C` cumulative rows, a successful
`add` of `k` rows (`0 < k < C`) stores payload row `s` at slot `s` for
every `s < k` (every field, every environment column), leaves every slot
at index `k` and beyond untouched, and leaves the cursor at `k`. -/
theorem add_after_exact_fill_overwrites_prefix {α : Type} {C E : Nat} {d : α}
    {rb : ReplayBuffer α} (h : ReachableFrom C E d rb C) (k : Nat)
    (hk0 : 0 < k) (hkC : k < C) (p : Payload α) (hsh : p.shape = [k, E])
    (rb2 : ReplayBuffer α) (hadd : rb.add p = Except.ok rb2) :
    rb2.pos = k ∧
    (∀ (f : String) (s e2 : Nat), s < k → rb2.buf f s e2 = p.data f s e2) ∧
    (∀ (f : String) (s e2 : Nat), k ≤ s → rb2.buf f s e2 = rb.buf f s e2) := by
  obtain ⟨hC, hE, hbs, hnE, hposle, hnotfull, hfulliff, hexact⟩ := reach_invariant h
  obtain ⟨hlen2, hgetd, hlen, hnil, hbnd, hrb2⟩ := add_ok_elim hadd
  subst hrb2
  have hhead : p.shape.headD 0 = k := by rw [hsh]; rfl
  have hpos2 : rb.pos = 0 ∨ rb.pos = C := hexact rfl
  have hnext : nextPosOf C rb.pos k = k := by
    rcases hpos2 with hp | hp
    · have hmodk : (0 + k) % C = k := by rw [Nat.zero_add, Nat.mod_eq_of_lt hkC]
      rw [hp, nextPosOf_mod C 0 k (fun hcon => by rw [hmodk] at hcon; omega), hmodk]
    · have hmodk : (C + k) % C = k := by rw [Nat.add_mod_left, Nat.mod_eq_of_lt hkC]
      rw [hp, nextPosOf_mod C C k (fun hcon => by omega), hmodk]
  have hidx : idxesOf C rb.pos k = List.range k := by
    rcases hpos2 with hp | hp
    · rw [hp, idxesOf_nowrap C 0 k (by omega), Nat.sub_zero, ← List.range_eq_range']
    · rw [hp, idxesOf_wrap C C k (by omega), Nat.sub_self]
      simp [List.range']
  refine ⟨?_, ?_, ?_⟩
  · show nextPosOf rb.bufferSize rb.pos (p.shape.headD 0) = k
    rw [hbs, hhead, hnext]
  · intro f s e2 hslt
    show writeRows (idxesOf rb.bufferSize rb.pos
      (nextPosOf rb.bufferSize rb.pos (p.shape.headD 0))) 0 p.data rb.buf f s e2 =
        p.data f s e2
    rw [hbs, hhead, hnext, hidx, writeRows_range k 0 p.data rb.buf f s e2 hslt,
      Nat.zero_add]
  · intro f s e2 hsge
    show writeRows (idxesOf rb.bufferSize rb.pos
      (nextPosOf rb.bufferSize rb.pos (p.shape.headD 0))) 0 p.data rb.buf f s e2 =
        rb.buf f s e2
    rw [hbs, hhead, hnext, hidx,
      writeRows_not_mem (List.range k) 0 p.data rb.buf f s e2
        (fun hmem => by rw [List.mem_range] at hmem; omega)]

/-- Witness for C4: writing one row into the exactly filled `rbFull2`
overwrites slot 0, keeps slot 1, and leaves the cursor at 1. -/
theorem add_after_exact_fill_overwrites_prefix_witness :
    rbK.pos = 1 ∧ rbK.buf observations 0 0 = pK.data observations 0 0 ∧
      rbK.buf observations 1 0 = rbFull2.buf observations 1 0 := by
  obtain ⟨h1, h2, h3⟩ := add_after_exact_fill_overwrites_prefix reach_rbFull2 1
    (by decide) (by decide) pK rfl rbK add_pK
  exact ⟨h1, h2 observations 0 0 (by decide), h3 observations 1 0 (by decide)⟩

/-- Counterexample to claim C5 as stated: the write cursor of a reachable
state is not always inside the half-open interval `[0, C)`.  After a
single exact-capacity `add` into a fresh buffer of capacity 2 the cursor
is `2 = bufferSize`, because the exact-multiple edge case of the source
sets `next_pos = data_len` without a final reduction modulo the capacity. -/
theorem pos_can_reach_capacity :
    ReachableFrom 2 1 (0 : Int) rbFull2 2 ∧ ¬(rbFull2.pos < rbFull2.bufferSize) :=
  ⟨reach_rbFull2, by decide⟩

/-- Claim C5 (amended): in every reachable state the write cursor lies in
the closed interval `[0, C]`; the upper endpoint `C` itself is attained
(see the counterexample), so only the closed bound holds. -/
theorem pos_le_capacity {α : Type} {C E : Nat} {d : α} {rb : ReplayBuffer α}
    {n : Nat} (h : ReachableFrom C E d rb n) : rb.pos ≤ C :=
  (reach_invariant h).2.2.2.2.1

/-- Witness for the amended C5 at the concrete state with `pos = 2`. -/
theorem pos_le_capacity_witness : rbFull2.pos ≤ 2 :=
  pos_le_capacity reach_rbFull2

/-- Claim C6: `add` fails with a shape error whenever the payload's rank
(number of batch dimensions) is below 2 or its environment dimension
differs from the buffer's `n_envs`: a wrong rank trips the explicit
rank-2 check of the source, and a wrong environment dimension trips the
batch-size comparison of the field-table indexed assignment. -/
theorem add_shape_error {α : Type} (rb : ReplayBuffer α) (p : Payload α)
    (hbad : p.shape.length < 2 ∨ p.shape.getD 1 0 ≠ rb.nEnvs) :
    rb.add p = Except.error BufError.shapeError := by
  simp only [ReplayBuffer.add]
  rcases hbad with hrank | henv
  · rw [if_neg (by omega)]
  · by_cases h2 : p.shape.length = 2
    · rw [if_pos h2, if_neg (fun hcon => henv hcon.2)]
    · rw [if_neg h2]

/-- Witness for C6: a payload with environment dimension 2 into a buffer
constructed with one environment fails with the shape error (spec example
scenario 4). -/
theorem add_shape_error_witness :
    bufInit.add pE2 = Except.error BufError.shapeError :=
  add_shape_error bufInit pE2 (Or.inr (by decide))

/-- Counterexample to claim C7 as stated: the well-typed, well-shaped
payload `pT3` with `T = 3` timesteps exceeds the capacity `C = 2` of the
fresh buffer, and `add` does not complete: the destination index list has
`3 % 2 = 1` entry against 3 payload rows, so the field-table assignment
raises its shape mismatch instead of wrapping the write around the buffer
multiple times. -/
theorem add_overlong_payload_cex :
    bufInit.add pT3 = Except.error BufError.shapeError := rfl

/-- Claim C7 (amended): for every buffer state with a positive capacity
and every rank-2 payload with a matching environment dimension whose
timestep count `T` exceeds the capacity, `add` raises an error (and so
changes nothing) instead of performing a multi-wraparound write. -/
theorem add_overlong_payload_errors {α : Type} (rb : ReplayBuffer α)
    (p : Payload α) (T : Nat) (hsh : p.shape = [T, rb.nEnvs])
    (hC : 0 < rb.bufferSize) (hT : rb.bufferSize < T) :
    (rb.add p).toOption = none := by
  cases hh : rb.add p with
  | error e => rfl
  | ok rb2 =>
      exfalso
      obtain ⟨hlen2, hgetd, hlen, hnil, hbnd, _⟩ := add_ok_elim hh
      have hhead : p.shape.headD 0 = T := by rw [hsh]; rfl
      rw [hhead] at hlen hbnd
      by_cases hedge : rb.pos = 0 ∧ (rb.pos + T) % rb.bufferSize = 0
      · rw [nextPosOf_edge _ _ _ hedge, hedge.1] at hbnd
        rw [idxesOf_nowrap _ 0 T (by omega), Nat.sub_zero, ← List.range_eq_range']
          at hbnd
        exact absurd (hbnd rb.bufferSize (List.mem_range.mpr hT)) (by omega)
      · rw [nextPosOf_mod _ _ _ hedge, idxesOf_length] at hlen
        have hmlt : (rb.pos + T) % rb.bufferSize < rb.bufferSize := Nat.mod_lt _ hC
        split at hlen <;> omega

/-- Witness for the amended C7 at the concrete overlong payload. -/
theorem add_overlong_payload_errors_witness : (bufInit.add pT3).toOption = none :=
  add_overlong_payload_errors bufInit pT3 3 rfl (by decide) (by decide)

/-- Claim C8: on a buffer to which nothing has ever been written
(`pos == 0` and `full == false`), `sample` with any accepted positive
batch size fails with the empty-buffer error (the `torch.randint(0, 0)`
of the not-full branch); sampling performs no writes, so the state is
unchanged. -/
theorem sample_empty_buffer_error {α : Type} {C E : Nat} {d : α}
    {rb : ReplayBuffer α} {n : Nat} (h : ReachableFrom C E d rb n)
    (hpos : rb.pos = 0) (hfull : rb.full = false) (batchSize : Nat)
    (hbs1 : 0 < batchSize) (hbs2 : batchSize ≤ rb.bufferSize)
    (r : Nat → Nat → Nat) :
    rb.sample batchSize r = Except.error BufError.emptyBufferError := by
  unfold ReplayBuffer.sample
  rw [if_neg (by omega), if_neg (by omega), if_neg (by simp [hfull]), if_pos hpos]

/-- Witness for C8: `sample(1)` on the freshly constructed buffer fails
with the empty-buffer error (spec example scenario 6). -/
theorem sample_empty_buffer_error_witness :
    bufInit.sample 1 (fun _ _ => 0) = Except.error BufError.emptyBufferError :=
  sample_empty_buffer_error (ReachableFrom.init (by decide) (by decide)) rfl rfl 1
    (by decide) (by decide) (fun _ _ => 0)

/-- Claim C9: for every non-string field key, the field read
(`__getitem__`, which checks `isinstance(key, str)` itself) and the field
write (`__setitem__`, whose delegate `TensorDict.set` validates the key)
both fail with a type error; the error paths return no new state, so the
buffer is unchanged. -/
theorem non_string_key_type_error {α : Type} (rb : ReplayBuffer α)
    (k : FieldKey) (hk : ∀ s, k ≠ FieldKey.str s) (t : Nat → Nat → α) :
    rb.getItem k = Except.error BufError.typeError ∧
    rb.setItem k t = Except.error BufError.typeError := by
  cases k with
  | str s => exact absurd rfl (hk s)
  | notStr => exact ⟨rfl, rfl⟩

/-- Witness for C9 at a concrete non-string key. -/
theorem non_string_key_type_error_witness :
    bufInit.getItem FieldKey.notStr = Except.error BufError.typeError ∧
    bufInit.setItem FieldKey.notStr (fun _ _ => 0) = Except.error BufError.typeError :=
  non_string_key_type_error bufInit FieldKey.notStr
    (fun _ hh => FieldKey.noConfusion hh) (fun _ _ => 0)

/-- Claim C10: `__len__` returns the construction capacity in every
reachable state, regardless of how many rows were written; it never
reflects the fill level. -/
theorem len_is_capacity {α : Type} {C E : Nat} {d : α} {rb : ReplayBuffer α}
    {n : Nat} (h : ReachableFrom C E d rb n) : rb.len = C := by
  have hbs := (reach_invariant h).2.2.1
  unfold ReplayBuffer.len
  exact hbs

/-- Witness for C10 at the concrete filled buffer. -/
theorem len_is_capacity_witness : rbFull2.len = 2 :=
  len_is_capacity reach_rbFull2
